import Mathlib

/-!
Verification development for the kernel-inventory core of clr-boot-manager
(`src/bootman/kernel.c`).  The C functions are shallowly embedded as pure
Lean functions; filesystem effects (`nc_file_exists`, `fopen`/`getline`,
`lstat`, `readlink`, `opendir`/`readdir`) are abstracted as an explicit
oracle record `Fs`, nullable C pointers become `Option`, and C strings
become Lean `String`/`List Char`.  The constants `KERNEL_NAMESPACE`,
`KERNEL_MODULES_DIRECTORY` and `CBM_KELEM_LEN`, which are build-time
configuration not present in the excerpted sources, are kept as explicit
parameters of the embedded functions, so every theorem quantifies over
them.  Machine-integer overflow of `int release` is not modelled (values
are `Int`); allocation failure aborts the C process and therefore has no
returned value to model.
-/

/-- C `isspace` in the C locale (space, \t, \n, \v, \f, \r), as used by
`sscanf`'s `%d` and by `strtol` when skipping leading whitespace. -/
def isSpaceC (c : Char) : Bool :=
  c = ' ' || c = '\t' || c = '\n' || c = '\x0b' || c = '\x0c' || c = '\r'

/-- ASCII decimal digit, as accepted by `%d` / `strtol` base 10. -/
def isDigitC (c : Char) : Bool :=
  '0' ≤ c && c ≤ '9'

/-- Numeric value of a digit string (most significant first). -/
def digitsToNat (l : List Char) : Nat :=
  l.foldl (fun a c => 10 * a + (c.toNat - 48)) 0

/-- Read a maximal nonempty run of decimal digits from the front of `l`,
returning its value and the rest; `none` when `l` does not start with a
digit.  This is the digit phase shared by `sscanf`'s `%d` and `strtol`. -/
def readDigits (l : List Char) : Option (Nat × List Char) :=
  let ds := l.takeWhile isDigitC
  if ds = [] then none else some (digitsToNat ds, l.dropWhile isDigitC)

/-- `sscanf` `%d` conversion: skip C whitespace, then an optional sign,
then at least one digit; returns the value and the unconsumed rest.
`none` is a matching failure of the conversion. -/
def scanfInt (l : List Char) : Option (Int × List Char) :=
  match l.dropWhile isSpaceC with
  | [] => none
  | c :: r =>
    if c = '-' then (readDigits r).map (fun p => (-(p.1 : Int), p.2))
    else if c = '+' then (readDigits r).map (fun p => ((p.1 : Int), p.2))
    else (readDigits (c :: r)).map (fun p => ((p.1 : Int), p.2))

/-- `strtol(s, &junk, 10)` followed by the caller's `junk && *junk != 0`
rejection check (kernel.c:383-386): the parse is accepted iff the whole
string is consumed.  An empty string is accepted with value 0 because
`strtol` then sets `junk` to the start, which is the terminating NUL. -/
def strtol10 (l : List Char) : Option Int :=
  if l = [] then some 0
  else match scanfInt l with
       | some (v, []) => some v
       | _ => none

/-- Match a list of literal characters at the front of the input, exactly
as `sscanf` matches non-whitespace literal format characters; returns the
rest on success. -/
def stripLits : List Char → List Char → Option (List Char)
  | [], l => some l
  | _ :: _, [] => none
  | p :: ps, c :: cs => if c = p then stripLits ps cs else none

/-- `sscanf` scan-set conversion `%N[^bad]`: take up to `n` characters
different from `bad` from the front of the input. -/
def spanScan : Nat → Char → List Char → (List Char × List Char)
  | 0, _, l => ([], l)
  | _ + 1, _, [] => ([], [])
  | n + 1, bad, c :: cs =>
      if c = bad then ([], c :: cs)
      else
        let p := spanScan n bad cs
        (c :: p.1, p.2)

/-- Index of the first occurrence of `t` in `l` (C `strchr`). -/
def strchrIdx (l : List Char) (t : Char) : Option Nat :=
  match l with
  | [] => none
  | c :: cs => if c = t then some 0 else (strchrIdx cs t).map (· + 1)

/-- GNU `basename` (string.h flavour, the one in scope under
`_GNU_SOURCE`): everything after the last `/`. -/
def basenameStr (s : String) : String :=
  ⟨(s.data.reverse.takeWhile (fun c => c ≠ '/')).reverse⟩

/-- `%d`-style rendering of an `Int`, as produced by `asprintf` when the
parsed release is interpolated back into companion-file paths. -/
def intStr (i : Int) : String := toString i

/-- The filename pattern match of `boot_manager_inspect_kernel`
(kernel.c:76-79):
`sscanf(bcp, KERNEL_NAMESPACE ".%15[^.].%15[^-]-%d", type, version, &release)`
with the result accepted iff all three conversions succeed (`r == 3`).
Returns `(type, version, release)`.  The namespace is a configuration
constant and is passed as the `ns` parameter (assumed free of `sscanf`
whitespace-significant characters, true of the project's reverse-DNS
namespaces such as the `org.clearlinux` of the comment on line 75). -/
def parse_kernel_name (ns : String) (bcp : String) : Option (String × String × Int) :=
  match stripLits (ns.data ++ ['.']) bcp.data with
  | none => none
  | some s1 =>
    let pt := spanScan 15 '.' s1
    if pt.1 = [] then none
    else
      match pt.2 with
      | [] => none
      | c2 :: s3 =>
        if c2 = '.' then
          let pv := spanScan 15 '-' s3
          if pv.1 = [] then none
          else
            match pv.2 with
            | [] => none
            | c4 :: s5 =>
              if c4 = '-' then
                match scanfInt s5 with
                | none => none
                | some (r, _) => some (⟨pt.1⟩, ⟨pv.1⟩, r)
              else none
        else none

example : parse_kernel_name "org.clearlinux" "org.clearlinux.kvm.4.2.1-121" =
    some ("kvm", "4.2.1", 121) := by decide
example : parse_kernel_name "org.clearlinux" "org.clearlinux.kvm.4.2.1-121abc" =
    some ("kvm", "4.2.1", 121) := by decide
example : parse_kernel_name "org.clearlinux" "org.clearlinux.kvm.4.2.1--121" =
    some ("kvm", "4.2.1", -121) := by decide
example : parse_kernel_name "org.clearlinux" "vmlinuz" = none := by decide
example : parse_kernel_name "org.clearlinux" "org.clearlinux.kvm.4.2.1" = none := by decide

/-- `getline` decomposition of a file's bytes: maximal chunks each ending
in `'\n'`, plus a final unterminated chunk when the file does not end in a
newline.  `acc` is the partial current line. -/
def linesAux : List Char → List Char → List (List Char)
  | acc, [] => if acc = [] then [] else [acc]
  | acc, c :: rest =>
      if c = '\n' then (acc ++ [c]) :: linesAux [] rest
      else linesAux (acc ++ [c]) rest

/-- The successive nonempty buffers returned by the `getline` loop of
kernel.c:155 on a file whose full content is `content`. -/
def linesOf (content : List Char) : List (List Char) := linesAux [] content

/-- The newline strip of kernel.c:158-160: remove the final character iff
the line is longer than one character and ends in `'\n'`. -/
def stripNl (l : List Char) : List Char :=
  if 1 < l.length ∧ l.getLast? = some '\n' then l.dropLast else l

/-- The cmdline accumulation of kernel.c:155-173: `kern->cmdline` starts
`NULL`; the first line becomes the cmdline, every further line is appended
after a single space. -/
def cmdlineJoinL : Option (List Char) → List (List Char) → Option (List Char)
  | acc, [] => acc
  | acc, line :: rest =>
      match acc with
      | none => cmdlineJoinL (some (stripNl line)) rest
      | some a => cmdlineJoinL (some (a ++ ' ' :: stripNl line)) rest

/-- The `kern->cmdline` value produced by the builder from the raw bytes
of the cmdline-fragment file: `none` is the C `NULL`. -/
def cmdlineOf (content : List Char) : Option (List Char) :=
  cmdlineJoinL none (linesOf content)

example : cmdlineOf "root=/dev/sda1 quiet\n".data = some "root=/dev/sda1 quiet".data := by decide
example : cmdlineOf "a\nb\n".data = some "a b".data := by decide
example : cmdlineOf "".data = none := by decide
example : cmdlineOf "\n".data = some "\n".data := by decide

/-- Result of a successful `lstat`. -/
structure Stat where
  isReg : Bool
  size : Nat
deriving DecidableEq

/-- Filesystem oracle abstracting the blocking filesystem calls made by
the inventory core: `nc_file_exists`, `fopen`+`getline` (returning the
whole file content, `none` when the open fails), `lstat`, `readlink`, and
`opendir`/`readdir` (returning the entry names in iteration order, `none`
when the directory cannot be opened). -/
structure Fs where
  fexists : String → Bool
  readFile : String → Option String
  lstat : String → Option Stat
  readlink : String → Option String
  dirents : String → Option (List String)

/-- The running-system kernel identity, C `struct SystemKernel`
(fixed-size `char` arrays become `String`). -/
structure SystemKernel where
  version : String
  release : Int
  ktype : String
deriving DecidableEq

/-- C `struct BootManager`, restricted to the fields the inventory core
reads: `prefix` (`pfx` here), nullable `kernel_dir`, the
`have_sys_kernel`/`sys_kernel` pair fused into an `Option`, and
`image_mode`. -/
structure BootManager where
  pfx : String
  kernel_dir : Option String
  sys_kernel : Option SystemKernel
  image_mode : Bool
deriving DecidableEq

/-- C `struct Kernel` as populated by `boot_manager_inspect_kernel`.
`cmdline` is `Option` because the C field can remain `NULL`;
`kconfig_file` is set only when that file exists. -/
structure Kernel where
  path : String
  bpath : String
  version : String
  module_dir : String
  ktype : String
  kconfig_file : Option String
  release : Int
  cmdline : Option String
  cmdline_file : String
  kboot_file : String
  boots : Bool
deriving DecidableEq

/-- The module-directory resolution of kernel.c:100-128: prefer the
current layout `<prefix>/<mdir>/<version>-<release>.<type>`, fall back to
the legacy layout without the `.type` suffix, `none` when neither
exists. -/
def resolve_module_dir (fs : Fs) (pfx mdir v : String) (rel : Int) (t : String) :
    Option String :=
  if fs.fexists (pfx ++ "/" ++ mdir ++ "/" ++ v ++ "-" ++ intStr rel ++ "." ++ t) then
    some (pfx ++ "/" ++ mdir ++ "/" ++ v ++ "-" ++ intStr rel ++ "." ++ t)
  else if fs.fexists (pfx ++ "/" ++ mdir ++ "/" ++ v ++ "-" ++ intStr rel) then
    some (pfx ++ "/" ++ mdir ++ "/" ++ v ++ "-" ++ intStr rel)
  else none

/-- `boot_manager_inspect_kernel` (kernel.c:46-186).  Parameters beyond
the C signature: `ns` = `KERNEL_NAMESPACE`, `mdir` =
`KERNEL_MODULES_DIRECTORY` (both build-configuration constants), `pO` =
`cbm_get_file_parent` (defined in the out-of-scope files.c; kept as an
explicit function parameter), and the filesystem oracle `fs`.  Returns
`none` exactly where the C function returns `NULL`.  Allocation-failure
aborts (`DECLARE_OOM(); abort()`) terminate the process and so have no
result to model. -/
def boot_manager_inspect_kernel (ns : String) (fs : Fs) (pO : String → String)
    (mdir : String) (oself : Option BootManager) (opath : Option String) : Option Kernel :=
  match oself, opath with
  | some self, some path =>
    let bcp := basenameStr path
    match parse_kernel_name ns bcp with
    | none => none
    | some (t, v, rel) =>
      let parent := pO path
      let cmdlinePath := parent ++ "/cmdline-" ++ v ++ "-" ++ intStr rel ++ "." ++ t
      let kconfigPath := parent ++ "/config-" ++ v ++ "-" ++ intStr rel ++ "." ++ t
      match fs.fexists cmdlinePath with
      | false => none
      | true =>
        match resolve_module_dir fs self.pfx mdir v rel t with
        | none => none
        | some module_dir =>
          match fs.readFile cmdlinePath with
          | none => none
          | some content =>
            let kboot := self.pfx ++ "/var/lib/kernel/k_booted_" ++ v ++ "-"
                           ++ intStr rel ++ "." ++ t
            some { path := path
                   bpath := bcp
                   version := v
                   module_dir := module_dir
                   ktype := t
                   kconfig_file := if fs.fexists kconfigPath then some kconfigPath else none
                   release := rel
                   cmdline := (cmdlineOf content.data).map (fun l => ⟨l⟩)
                   cmdline_file := cmdlinePath
                   kboot_file := kboot
                   boots := fs.fexists kboot }
  | _, _ => none

/-- `boot_manager_get_kernels` (kernel.c:188-244): scan the kernel
directory, skip entries whose `lstat` fails, non-regular entries and
empty files, inspect the rest, and accumulate the produced records in
iteration order.  `none` when the manager or its `kernel_dir` is null or
the directory cannot be opened. -/
def boot_manager_get_kernels (ns : String) (fs : Fs) (pO : String → String)
    (mdir : String) (oself : Option BootManager) : Option (List Kernel) :=
  match oself with
  | none => none
  | some self =>
    match self.kernel_dir with
    | none => none
    | some kd =>
      match fs.dirents kd with
      | none => none
      | some ents =>
        some (ents.foldl (fun acc name =>
          let path := kd ++ "/" ++ name
          match fs.lstat path with
          | none => acc
          | some st =>
            if st.isReg = false then acc
            else if st.size = 0 then acc
            else match boot_manager_inspect_kernel ns fs pO mdir (some self) (some path) with
                 | none => acc
                 | some k => acc ++ [k]) [])

/-- `boot_manager_get_default_for_type` (kernel.c:263-288): read the
`default-<type>` symlink in the kernel directory and return the first
record whose base filename equals the link target.  glibc `asprintf`
renders a null `kernel_dir` as the text `(null)`. -/
def boot_manager_get_default_for_type (fs : Fs) (oself : Option BootManager)
    (okernels : Option (List Kernel)) (otype : Option String) : Option Kernel :=
  match oself, okernels, otype with
  | some self, some kernels, some t =>
    let kd := match self.kernel_dir with | some s => s | none => "(null)"
    match fs.readlink (kd ++ "/default-" ++ t) with
    | none => none
    | some target => kernels.find? (fun k => k.bpath == target)
  | _, _, _ => none

/-- `boot_manager_get_system_kernel` (kernel.c:406-415). -/
def boot_manager_get_system_kernel (oself : Option BootManager) : Option SystemKernel :=
  match oself with
  | none => none
  | some self =>
    match self.sys_kernel with
    | none => none
    | some k => if self.image_mode then none else some k

/-- `boot_manager_get_running_kernel` (kernel.c:417-435): first record
equal to the system kernel on all three identity fields. -/
def boot_manager_get_running_kernel (oself : Option BootManager)
    (okernels : Option (List Kernel)) : Option Kernel :=
  match oself, okernels with
  | some self, some kernels =>
    match boot_manager_get_system_kernel (some self) with
    | none => none
    | some sk =>
      kernels.find? (fun k =>
        k.ktype == sk.ktype && k.version == sk.version && k.release == sk.release)
  | _, _ => none

/-- The scan loop of `boot_manager_get_last_booted` (kernel.c:445-455):
`high` is `high_rel`, `cand` is `candidate`; records with a release below
the running maximum are skipped, then non-booting records are skipped,
and every remaining record replaces the candidate. -/
def lastBootedLoop : List Kernel → Int → Option Kernel → Option Kernel
  | [], _, cand => cand
  | k :: rest, high, cand =>
      if k.release < high then lastBootedLoop rest high cand
      else if k.boots = false then lastBootedLoop rest high cand
      else lastBootedLoop rest k.release (some k)

/-- `boot_manager_get_last_booted` (kernel.c:437-457). -/
def boot_manager_get_last_booted (oself : Option BootManager)
    (okernels : Option (List Kernel)) : Option Kernel :=
  match oself, okernels with
  | some _, some kernels => lastBootedLoop kernels (-1) none
  | _, _ => none

/-- `cbm_parse_system_kernel` (kernel.c:333-404).  `kelem` is the
build-configuration constant `CBM_KELEM_LEN`.  The result pairs the C
return value with the final content of the output structure (`none` when
the passed pointer was null).  The structure is `memset` to zero on entry
(line 340), after which fields are filled in the C order: `version`
(line 371), `release` (line 387), `ktype` (line 400); failure exits in
between leave the fields written so far, exactly as in C.  The dead
pointer comparison `c + 1 == '\0'` of line 354 never fires and has no
counterpart here. -/
def cbm_parse_system_kernel (kelem : Nat) (oinp : Option String)
    (okernel : Option SystemKernel) : Bool × Option SystemKernel :=
  match okernel, oinp with
  | none, _ => (false, none)
  | some prior, none => (false, some prior)
  | some _, some inp =>
    let l := inp.data
    let k0 : SystemKernel := ⟨"", 0, ""⟩
    match strchrIdx l '-' with
    | none => (false, some k0)
    | some i =>
      if kelem ≤ i then (false, some k0)
      else
        let after := l.drop (i + 1)
        match strchrIdx after '.' with
        | none => (false, some k0)
        | some j =>
          if kelem ≤ j + 1 then (false, some k0)
          else if i < 1 then (false, some k0)
          else
            let k1 : SystemKernel := { k0 with version := ⟨l.take i⟩ }
            if j < 1 then (false, some k1)
            else
              match strtol10 (after.take j) with
              | none => (false, some k1)
              | some r =>
                let k2 : SystemKernel := { k1 with release := r }
                let tl := after.drop (j + 1)
                if tl.length < 1 ∨ kelem ≤ tl.length then (false, some k2)
                else (true, some { k2 with ktype := ⟨tl⟩ })

example : cbm_parse_system_kernel 31 (some "4.4.0-120.lts") (some ⟨"x", 9, "y"⟩) =
    (true, some ⟨"4.4.0", 120, "lts"⟩) := by decide
example : (cbm_parse_system_kernel 31 (some "4.4.0.lts") (some ⟨"x", 9, "y"⟩)).1 = false := by
  decide
example : (cbm_parse_system_kernel 31 (some "4.4.0-abc.lts") (some ⟨"x", 9, "y"⟩)).1 = false := by
  decide

/-- C8: the system kernel identity parser accepts `"4.4.0-120.lts"` as
`{version := "4.4.0", release := 120, type := "lts"}` and returns true,
and rejects `"4.4.0.lts"` (no `-`) and `"4.4.0-abc.lts"` (non-numeric
release).  `CBM_KELEM_LEN` is any bound large enough for these tokens
(the hypothesis `6 ≤ kelem`; the project configures 31). -/
theorem system_parser_examples (kelem : Nat) (p : SystemKernel) (h : 6 ≤ kelem) :
    cbm_parse_system_kernel kelem (some "4.4.0-120.lts") (some p) =
      (true, some ⟨"4.4.0", 120, "lts"⟩) ∧
    (cbm_parse_system_kernel kelem (some "4.4.0.lts") (some p)).1 = false ∧
    (cbm_parse_system_kernel kelem (some "4.4.0-abc.lts") (some p)).1 = false := by
  refine ⟨?_, ?_, ?_⟩
  · have h1 : strchrIdx "4.4.0-120.lts".data '-' = some 5 := rfl
    have h2 : strchrIdx (List.drop (5 + 1) "4.4.0-120.lts".data) '.' = some 3 := rfl
    have h3 : strtol10 (List.take 3 (List.drop (5 + 1) "4.4.0-120.lts".data)) = some 120 := rfl
    have h4 : ¬ (kelem ≤ 5) := by omega
    have h5 : ¬ (kelem ≤ 3 + 1) := by omega
    have h6 : List.drop (3 + 1) (List.drop (5 + 1) "4.4.0-120.lts".data) = "lts".data := rfl
    simp only [cbm_parse_system_kernel, h1, h2, h3, h4, h5, h6, if_false, ite_false]
    simp [h4, h5]
    omega
  · have h1 : strchrIdx "4.4.0.lts".data '-' = none := rfl
    simp only [cbm_parse_system_kernel, h1]
  · have h1 : strchrIdx "4.4.0-abc.lts".data '-' = some 5 := rfl
    have h2 : strchrIdx (List.drop (5 + 1) "4.4.0-abc.lts".data) '.' = some 3 := rfl
    have h3 : strtol10 (List.take 3 (List.drop (5 + 1) "4.4.0-abc.lts".data)) = none := rfl
    by_cases h4 : kelem ≤ 5
    · simp only [cbm_parse_system_kernel, h1, h4, if_true, ite_true]
    · have h5 : ¬ (kelem ≤ 3 + 1) := by omega
      simp only [cbm_parse_system_kernel, h1, h2, h3, h4, h5, if_false, ite_false]
      simp

/-- Witness for `system_parser_examples` at the configured bound 31 and a
dirty prior structure. -/
theorem system_parser_examples_witness :
    (6 ≤ 31) ∧
    (cbm_parse_system_kernel 31 (some "4.4.0-120.lts") (some ⟨"junk", -7, "junk"⟩) =
      (true, some ⟨"4.4.0", 120, "lts"⟩) ∧
    (cbm_parse_system_kernel 31 (some "4.4.0.lts") (some ⟨"junk", -7, "junk"⟩)).1 = false ∧
    (cbm_parse_system_kernel 31 (some "4.4.0-abc.lts") (some ⟨"junk", -7, "junk"⟩)).1 = false) :=
  ⟨by decide, system_parser_examples 31 ⟨"junk", -7, "junk"⟩ (by decide)⟩

/-- C9: the system kernel identity parser is reentrant — for a non-null
input string its return value and the final content of the output
structure are the same whatever the structure held before the call,
because the structure is fully `memset` at entry (kernel.c:340) and every
subsequent write depends only on the input. -/
theorem system_parser_reentrant (kelem : Nat) (inp : String) (p1 p2 : SystemKernel) :
    cbm_parse_system_kernel kelem (some inp) (some p1) =
      cbm_parse_system_kernel kelem (some inp) (some p2) := rfl

/-- C10: every public operation of the core is total on null inputs: with
a null manager, null inventory, null path/type/input string, null
`kernel_dir`, or null output structure, each returns null/false for every
filesystem oracle (hence touches no file) and, for the system parser, the
output structure keeps its prior content. -/
theorem null_inputs_total :
    (∀ ns fs pO mdir p, boot_manager_inspect_kernel ns fs pO mdir none p = none) ∧
    (∀ ns fs pO mdir m, boot_manager_inspect_kernel ns fs pO mdir (some m) none = none) ∧
    (∀ ns fs pO mdir, boot_manager_get_kernels ns fs pO mdir none = none) ∧
    (∀ ns fs pO mdir pfx sk im,
      boot_manager_get_kernels ns fs pO mdir (some ⟨pfx, none, sk, im⟩) = none) ∧
    (∀ fs ks t, boot_manager_get_default_for_type fs none ks t = none) ∧
    (∀ fs m t, boot_manager_get_default_for_type fs (some m) none t = none) ∧
    (∀ fs m ks, boot_manager_get_default_for_type fs (some m) (some ks) none = none) ∧
    (∀ kelem p, cbm_parse_system_kernel kelem none (some p) = (false, some p)) ∧
    (∀ kelem inp, cbm_parse_system_kernel kelem inp none = (false, none)) ∧
    (∀ ks, boot_manager_get_running_kernel none ks = none) ∧
    (∀ m, boot_manager_get_running_kernel (some m) none = none) ∧
    (∀ ks, boot_manager_get_last_booted none ks = none) ∧
    (∀ m, boot_manager_get_last_booted (some m) none = none) := by
  refine ⟨?_, ?_, ?_, ?_, ?_, ?_, ?_, ?_, ?_, ?_, ?_, ?_, ?_⟩ <;> intros <;> rfl

/-- Running maximum of the `release` fields, seeded with `a` (the shape
`high_rel` takes through the `boot_manager_get_last_booted` scan). -/
def maxFrom (a : Int) (l : List Kernel) : Int :=
  l.foldl (fun x k => max x k.release) a

theorem maxFrom_nil (a : Int) : maxFrom a [] = a := rfl

theorem maxFrom_cons (a : Int) (k : Kernel) (l : List Kernel) :
    maxFrom a (k :: l) = maxFrom (max a k.release) l := rfl

theorem le_maxFrom (l : List Kernel) : ∀ a : Int, a ≤ maxFrom a l := by
  induction l with
  | nil => intro a; exact le_refl a
  | cons k rest ih =>
    intro a
    calc a ≤ max a k.release := le_max_left _ _
    _ ≤ maxFrom (max a k.release) rest := ih _
    _ = maxFrom a (k :: rest) := rfl

theorem maxFrom_ge_mem (l : List Kernel) :
    ∀ (a : Int) (k : Kernel), k ∈ l → k.release ≤ maxFrom a l := by
  induction l with
  | nil => intro a k hk; cases hk
  | cons x rest ih =>
    intro a k hk
    rcases List.mem_cons.mp hk with h | h
    · subst h
      calc k.release ≤ max a k.release := le_max_right _ _
      _ ≤ maxFrom (max a k.release) rest := le_maxFrom _ _
    · exact ih _ k h

theorem maxFrom_attained (l : List Kernel) :
    ∀ a : Int, maxFrom a l = a ∨ ∃ k ∈ l, maxFrom a l = k.release := by
  induction l with
  | nil => intro a; exact Or.inl rfl
  | cons x rest ih =>
    intro a
    rcases ih (max a x.release) with h | ⟨k, hk, he⟩
    · rw [maxFrom_cons, h]
      rcases le_or_lt x.release a with hle | hlt
      · exact Or.inl (max_eq_left hle)
      · exact Or.inr ⟨x, List.mem_cons_self _ _, max_eq_right hlt.le⟩
    · exact Or.inr ⟨k, List.mem_cons_of_mem _ hk, by rw [maxFrom_cons, he]⟩

theorem getLast?_cons_ne_nil (c : Kernel) (t : List Kernel) (h : t ≠ []) :
    (c :: t).getLast? = t.getLast? := by
  cases t with
  | nil => exact absurd rfl h
  | cons x xs => exact List.getLast?_cons_cons

/-- Records with `boots == false` are invisible to the last-booted scan:
both guards of the loop skip them. -/
theorem lastBootedLoop_filter (ks : List Kernel) :
    ∀ (high : Int) (cand : Option Kernel),
      lastBootedLoop ks high cand =
        lastBootedLoop (ks.filter (fun k => k.boots)) high cand := by
  induction ks with
  | nil => intro high cand; rfl
  | cons k rest ih =>
    intro high cand
    cases hb : k.boots
    · have hL : lastBootedLoop (k :: rest) high cand = lastBootedLoop rest high cand := by
        simp only [lastBootedLoop, hb]
        split <;> rfl
      rw [hL, List.filter_cons_of_neg (by simp [hb])]
      exact ih high cand
    · rw [List.filter_cons_of_pos (by simp [hb])]
      simp only [lastBootedLoop, hb]
      split
      · exact ih high cand
      · simp only [if_neg (by simp : ¬ (true = false))]
        exact ih k.release (some k)

/-- Core characterization of the last-booted scan over an all-booted
suffix: starting from candidate `c` with `high_rel = c.release`, the loop
returns the last element of `c :: bs` whose release equals the running
maximum. -/
theorem loop_booted_char (bs : List Kernel) :
    ∀ c : Kernel, (∀ k ∈ bs, k.boots = true) →
      lastBootedLoop bs c.release (some c) =
        ((c :: bs).filter (fun k => k.release == maxFrom c.release bs)).getLast? := by
  induction bs with
  | nil =>
    intro c _
    simp [lastBootedLoop, maxFrom_nil, List.filter]
  | cons k rest ih =>
    intro c hb
    have hbk : k.boots = true := hb k (List.mem_cons_self _ _)
    have hbrest : ∀ x ∈ rest, x.boots = true := fun x hx => hb x (List.mem_cons_of_mem _ hx)
    by_cases hlt : k.release < c.release
    · have hmax : max c.release k.release = c.release := max_eq_left hlt.le
      have hM : maxFrom c.release (k :: rest) = maxFrom c.release rest := by
        rw [maxFrom_cons, hmax]
      have hL : lastBootedLoop (k :: rest) c.release (some c) =
          lastBootedLoop rest c.release (some c) := by
        simp only [lastBootedLoop, if_pos hlt]
      have hkne : (k.release == maxFrom c.release rest) = false := by
        have h1 : c.release ≤ maxFrom c.release rest := le_maxFrom _ _
        have : k.release ≠ maxFrom c.release rest := by omega
        simp [this]
      rw [hL, ih c hbrest, hM]
      have hfilter :
          ((c :: k :: rest).filter (fun x => x.release == maxFrom c.release rest)) =
            ((c :: rest).filter (fun x => x.release == maxFrom c.release rest)) := by
        simp only [List.filter_cons, hkne, Bool.false_eq_true, if_false]
      rw [hfilter]
    · have hmax : max c.release k.release = k.release := max_eq_right (by omega)
      have hM : maxFrom c.release (k :: rest) = maxFrom k.release rest := by
        rw [maxFrom_cons, hmax]
      have hL : lastBootedLoop (k :: rest) c.release (some c) =
          lastBootedLoop rest k.release (some k) := by
        simp only [lastBootedLoop, if_neg hlt, hbk]
        simp
      rw [hL, ih k hbrest, hM]
      set M := maxFrom k.release rest with hMdef
      have hT : ((k :: rest).filter (fun x => x.release == M)) ≠ [] := by
        rcases maxFrom_attained rest k.release with h | ⟨x, hx, he⟩
        · intro hcon
          have hkmem : k ∈ (k :: rest).filter (fun x => x.release == M) := by
            apply List.mem_filter.mpr
            exact ⟨List.mem_cons_self _ _, by rw [hMdef, h]; exact beq_self_eq_true _⟩
          rw [hcon] at hkmem
          cases hkmem
        · intro hcon
          have hxmem : x ∈ (k :: rest).filter (fun y => y.release == M) := by
            apply List.mem_filter.mpr
            exact ⟨List.mem_cons_of_mem _ hx, by rw [hMdef, he]; exact beq_self_eq_true _⟩
          rw [hcon] at hxmem
          cases hxmem
      conv_rhs => rw [List.filter_cons]
      split
      · exact (getLast?_cons_ne_nil c _ hT).symm
      · rfl

/-- Splitting a conjunctive `filter` over the booted filter. -/
theorem filter_boots_and (ks : List Kernel) (f : Kernel → Bool) :
    ks.filter (fun k => k.boots && f k) = (ks.filter (fun k => k.boots)).filter f := by
  induction ks with
  | nil => rfl
  | cons k rest ih =>
    cases hb : k.boots
    · simp [List.filter_cons, hb, ih]
    · simp [List.filter_cons, hb, ih]

/-- Highest release among the booted records, with the loop's `-1` seed. -/
def bootedMaxRel (ks : List Kernel) : Int :=
  maxFrom (-1) (ks.filter (fun k => k.boots))

/-- Full characterization of `boot_manager_get_last_booted` on inventories
whose releases are non-negative (the data model's range): the result is
the last record, in scan order, among the booted records of maximal
release. -/
theorem lastBooted_char (self : BootManager) (ks : List Kernel)
    (hnn : ∀ k ∈ ks, 0 ≤ k.release) :
    boot_manager_get_last_booted (some self) (some ks) =
      (ks.filter (fun k => k.boots && (k.release == bootedMaxRel ks))).getLast? := by
  have hmain : boot_manager_get_last_booted (some self) (some ks) =
      lastBootedLoop (ks.filter (fun k => k.boots)) (-1) none :=
    lastBootedLoop_filter ks (-1) none
  rw [hmain, filter_boots_and]
  cases hbs : ks.filter (fun k => k.boots) with
  | nil => rfl
  | cons c rest =>
    have hcmem : c ∈ ks.filter (fun k => k.boots) := by rw [hbs]; exact List.mem_cons_self _ _
    have hcboots : c.boots = true := by
      have := List.mem_filter.mp hcmem
      simpa using this.2
    have hcnn : 0 ≤ c.release := hnn c (List.mem_filter.mp hcmem).1
    have hrestboots : ∀ x ∈ rest, x.boots = true := by
      intro x hx
      have hxmem : x ∈ ks.filter (fun k => k.boots) := by
        rw [hbs]; exact List.mem_cons_of_mem _ hx
      have := List.mem_filter.mp hxmem
      simpa using this.2
    have hstep : lastBootedLoop (c :: rest) (-1) none =
        lastBootedLoop rest c.release (some c) := by
      simp only [lastBootedLoop, if_neg (by omega : ¬ (c.release < -1)), hcboots]
      simp
    have hMr : bootedMaxRel ks = maxFrom c.release rest := by
      unfold bootedMaxRel
      rw [hbs, maxFrom_cons, max_eq_right (by omega : (-1 : Int) ≤ c.release)]
    rw [hstep, loop_booted_char rest c hrestboots, hMr]

theorem myGetLastMem {α : Type} (l : List α) (a : α) (h : l.getLast? = some a) : a ∈ l := by
  induction l with
  | nil => cases h
  | cons x xs ih =>
    cases xs with
    | nil => simp at h; simp [h]
    | cons y ys =>
      rw [List.getLast?_cons_cons] at h
      exact List.mem_cons_of_mem _ (ih h)

/-- C1: on inventories with non-negative releases (the data model's
range), the last-booted query returns `none` iff no record boots,
otherwise some booting record of the inventory whose release is maximal
among the booting records; non-booting records never influence the result
(filtering them away first changes nothing). -/
theorem last_booted_correct (self : BootManager) (ks : List Kernel)
    (hnn : ∀ k ∈ ks, 0 ≤ k.release) :
    (boot_manager_get_last_booted (some self) (some ks) = none ↔
      ∀ k ∈ ks, k.boots = false) ∧
    (∀ k, boot_manager_get_last_booted (some self) (some ks) = some k →
      k.boots = true ∧ k ∈ ks ∧ ∀ x ∈ ks, x.boots = true → x.release ≤ k.release) ∧
    boot_manager_get_last_booted (some self) (some ks) =
      boot_manager_get_last_booted (some self) (some (ks.filter (fun k => k.boots))) := by
  have hchar := lastBooted_char self ks hnn
  refine ⟨⟨?_, ?_⟩, ?_, ?_⟩
  · intro h0 k hk
    cases hb : k.boots
    · rfl
    · exfalso
      rw [hchar] at h0
      have hA : ks.filter (fun k => k.boots && (k.release == bootedMaxRel ks)) = [] :=
        List.getLast?_eq_none_iff.mp h0
      have hkbs : k ∈ ks.filter (fun k => k.boots) :=
        List.mem_filter.mpr ⟨hk, by simp [hb]⟩
      rcases maxFrom_attained (ks.filter (fun k => k.boots)) (-1) with hm | ⟨x, hx, he⟩
      · have h1 : k.release ≤ maxFrom (-1) (ks.filter (fun k => k.boots)) :=
          maxFrom_ge_mem _ _ k hkbs
        have h2 : 0 ≤ k.release := hnn k hk
        rw [hm] at h1
        omega
      · have hxks : x ∈ ks := (List.mem_filter.mp hx).1
        have hxb : x.boots = true := by simpa using (List.mem_filter.mp hx).2
        have hxA : x ∈ ks.filter (fun k => k.boots && (k.release == bootedMaxRel ks)) := by
          apply List.mem_filter.mpr
          refine ⟨hxks, ?_⟩
          unfold bootedMaxRel
          rw [he]
          simp [hxb]
        rw [hA] at hxA
        cases hxA
  · intro hall
    rw [hchar]
    have hnil : ks.filter (fun k => k.boots && (k.release == bootedMaxRel ks)) = [] := by
      apply List.filter_eq_nil_iff.mpr
      intro a ha
      simp [hall a ha]
    rw [hnil]
    rfl
  · intro k hk
    rw [hchar] at hk
    have hkA := myGetLastMem _ _ hk
    have h1 := List.mem_filter.mp hkA
    have hb : k.boots = true := by
      have h2 := h1.2
      simp at h2
      exact h2.1
    have hrel : k.release = bootedMaxRel ks := by
      have h2 := h1.2
      simp at h2
      exact h2.2
    refine ⟨hb, h1.1, ?_⟩
    intro x hx hxb
    have hxbs : x ∈ ks.filter (fun k => k.boots) := List.mem_filter.mpr ⟨hx, by simp [hxb]⟩
    have h3 := maxFrom_ge_mem (ks.filter (fun k => k.boots)) (-1) x hxbs
    rw [hrel]
    exact h3
  · exact lastBootedLoop_filter ks (-1) none

/-- Shared concrete manager for witnesses and counterexamples. -/
def mgr0 : BootManager :=
  { pfx := "", kernel_dir := some "/boot/kernels", sys_kernel := none, image_mode := false }

def kw5 : Kernel :=
  { path := "/k/org.clearlinux.kvm.4.1.0-5", bpath := "org.clearlinux.kvm.4.1.0-5"
    version := "4.1.0", module_dir := "/m5", ktype := "kvm", kconfig_file := none
    release := 5, cmdline := some "a", cmdline_file := "/c5", kboot_file := "/b5"
    boots := true }

def kw7 : Kernel :=
  { path := "/k/org.clearlinux.kvm.4.1.0-7", bpath := "org.clearlinux.kvm.4.1.0-7"
    version := "4.1.0", module_dir := "/m7", ktype := "kvm", kconfig_file := none
    release := 7, cmdline := some "a", cmdline_file := "/c7", kboot_file := "/b7"
    boots := true }

def kw9 : Kernel :=
  { path := "/k/org.clearlinux.kvm.4.1.0-9", bpath := "org.clearlinux.kvm.4.1.0-9"
    version := "4.1.0", module_dir := "/m9", ktype := "kvm", kconfig_file := none
    release := 9, cmdline := some "a", cmdline_file := "/c9", kboot_file := "/b9"
    boots := false }

/-- Witness for `last_booted_correct` on the spec's own example inventory
(booted releases 5 and 7, non-booted release 9). -/
theorem last_booted_correct_witness :
    (∀ k ∈ [kw5, kw7, kw9], 0 ≤ k.release) ∧
    ((boot_manager_get_last_booted (some mgr0) (some [kw5, kw7, kw9]) = none ↔
       ∀ k ∈ [kw5, kw7, kw9], k.boots = false) ∧
     (∀ k, boot_manager_get_last_booted (some mgr0) (some [kw5, kw7, kw9]) = some k →
       k.boots = true ∧ k ∈ [kw5, kw7, kw9] ∧
         ∀ x ∈ [kw5, kw7, kw9], x.boots = true → x.release ≤ k.release) ∧
     boot_manager_get_last_booted (some mgr0) (some [kw5, kw7, kw9]) =
       boot_manager_get_last_booted (some mgr0)
         (some ([kw5, kw7, kw9].filter (fun k => k.boots)))) :=
  ⟨by decide, last_booted_correct mgr0 [kw5, kw7, kw9] (by decide)⟩

def kt1 : Kernel :=
  { path := "/k/org.clearlinux.kvm.4.2.0-7", bpath := "org.clearlinux.kvm.4.2.0-7"
    version := "4.2.0", module_dir := "/ma", ktype := "kvm", kconfig_file := none
    release := 7, cmdline := some "a", cmdline_file := "/ca", kboot_file := "/ba"
    boots := true }

def kt2 : Kernel :=
  { path := "/k/org.clearlinux.lts.4.3.0-7", bpath := "org.clearlinux.lts.4.3.0-7"
    version := "4.3.0", module_dir := "/mb", ktype := "lts", kconfig_file := none
    release := 7, cmdline := some "b", cmdline_file := "/cb", kboot_file := "/bb"
    boots := true }

/-- C2 counterexample: two booting records share the maximal release 7;
the scan (`k->release < high_rel` is a strict comparison, kernel.c:447)
lets the later record overwrite the earlier candidate, so the query
returns the SECOND record in scan order, not the first as claimed. -/
theorem last_booted_tie_counterexample :
    boot_manager_get_last_booted (some mgr0) (some [kt1, kt2]) = some kt2 ∧ kt2 ≠ kt1 := by
  decide

/-- C2 amended: on inventories with non-negative releases, when several
booting records share the (maximal) release, the last-booted query
returns the LAST such record in scan order — the result is the last
element of the list of booting records achieving the maximal release. -/
theorem last_booted_tie_last (self : BootManager) (ks : List Kernel)
    (hnn : ∀ k ∈ ks, 0 ≤ k.release) :
    boot_manager_get_last_booted (some self) (some ks) =
      (ks.filter (fun k => k.boots && (k.release == bootedMaxRel ks))).getLast? :=
  lastBooted_char self ks hnn

/-- Witness for `last_booted_tie_last` on the tied inventory. -/
theorem last_booted_tie_last_witness :
    (∀ k ∈ [kt1, kt2], 0 ≤ k.release) ∧
    boot_manager_get_last_booted (some mgr0) (some [kt1, kt2]) =
      ([kt1, kt2].filter (fun k => k.boots && (k.release == bootedMaxRel [kt1, kt2]))).getLast? :=
  ⟨by decide, last_booted_tie_last mgr0 [kt1, kt2] (by decide)⟩

theorem stripLits_sound : ∀ (p l r : List Char), stripLits p l = some r → l = p ++ r := by
  intro p
  induction p with
  | nil =>
    intro l r h
    simp only [stripLits, Option.some.injEq] at h
    simp [h]
  | cons x ps ih =>
    intro l r h
    cases l with
    | nil => simp [stripLits] at h
    | cons c cs =>
      simp only [stripLits] at h
      by_cases hc : c = x
      · rw [if_pos hc] at h
        subst hc
        simp [ih cs r h]
      · rw [if_neg hc] at h
        cases h

theorem stripLits_complete : ∀ (p r : List Char), stripLits p (p ++ r) = some r := by
  intro p
  induction p with
  | nil => intro r; rfl
  | cons x ps ih => intro r; simp [stripLits, ih]

theorem spanScan_sound (bad : Char) (n : Nat) :
    ∀ l : List Char,
      l = (spanScan n bad l).1 ++ (spanScan n bad l).2 ∧
      (spanScan n bad l).1.length ≤ n ∧
      (∀ c ∈ (spanScan n bad l).1, c ≠ bad) := by
  induction n with
  | zero =>
    intro l
    refine ⟨rfl, ?_, ?_⟩ <;> simp [spanScan]
  | succ m ih =>
    intro l
    cases l with
    | nil => refine ⟨rfl, ?_, ?_⟩ <;> simp [spanScan]
    | cons c cs =>
      by_cases hc : c = bad
      · refine ⟨?_, ?_, ?_⟩ <;> simp [spanScan, hc]
      · obtain ⟨ih1, ih2, ih3⟩ := ih cs
        refine ⟨?_, ?_, ?_⟩
        · simp only [spanScan, if_neg hc, List.cons_append]
          exact congrArg (List.cons c) ih1
        · simp only [spanScan, if_neg hc, List.length_cons]
          omega
        · simp only [spanScan, if_neg hc]
          intro x hx
          rcases List.mem_cons.mp hx with h | h
          · subst h; exact hc
          · exact ih3 x h

theorem spanScan_complete (bad : Char) (t : List Char) :
    ∀ (n : Nat) (rest : List Char), (∀ c ∈ t, c ≠ bad) → t.length ≤ n →
      spanScan n bad (t ++ bad :: rest) = (t, bad :: rest) := by
  induction t with
  | nil =>
    intro n rest _ _
    cases n with
    | zero => simp [spanScan]
    | succ m => simp [spanScan]
  | cons c t' ih =>
    intro n rest h1 h2
    cases n with
    | zero => simp at h2
    | succ m =>
      have hc : c ≠ bad := h1 c (List.mem_cons_self _ _)
      simp only [List.cons_append, spanScan, if_neg hc, List.append_eq]
      rw [ih m rest (fun x hx => h1 x (List.mem_cons_of_mem _ hx)) (by simpa using h2)]

theorem digitC_facts (c : Char) (h : isDigitC c = true) :
    isSpaceC c = false ∧ c ≠ '-' ∧ c ≠ '+' := by
  have hne : ∀ d : Char, isDigitC d = false → c ≠ d := by
    intro d hd he
    rw [he] at h
    rw [h] at hd
    cases hd
  refine ⟨?_, hne '-' (by decide), hne '+' (by decide)⟩
  simp [isSpaceC, hne ' ' (by decide), hne '\t' (by decide), hne '\n' (by decide),
        hne '\x0b' (by decide), hne '\x0c' (by decide), hne '\r' (by decide)]

theorem readDigits_sound (l : List Char) (n : Nat) (rest : List Char)
    (h : readDigits l = some (n, rest)) :
    ∃ ds, l = ds ++ rest ∧ ds ≠ [] ∧ (∀ c ∈ ds, isDigitC c = true) ∧ n = digitsToNat ds := by
  simp only [readDigits] at h
  by_cases hds : l.takeWhile isDigitC = []
  · rw [if_pos hds] at h; cases h
  · rw [if_neg hds] at h
    have h' := Option.some.inj h
    have hn : digitsToNat (l.takeWhile isDigitC) = n := congrArg Prod.fst h'
    have hr : l.dropWhile isDigitC = rest := congrArg Prod.snd h'
    refine ⟨l.takeWhile isDigitC, ?_, hds, ?_, hn.symm⟩
    · rw [hr.symm]
      exact (List.takeWhile_append_dropWhile isDigitC l).symm
    · intro c hc
      exact List.mem_takeWhile_imp hc

theorem readDigits_complete (ds : List Char) (h1 : ds ≠ [])
    (h2 : ∀ c ∈ ds, isDigitC c = true) :
    readDigits ds = some (digitsToNat ds, []) := by
  simp only [readDigits]
  rw [List.takeWhile_eq_self_iff.mpr h2, List.dropWhile_eq_nil_iff.mpr h2, if_neg h1]

theorem scanfInt_sound (l : List Char) (r : Int) (tail : List Char)
    (h : scanfInt l = some (r, tail)) :
    ∃ ws sgn ds, l = ws ++ sgn ++ ds ++ tail ∧ (∀ c ∈ ws, isSpaceC c = true) ∧
      ds ≠ [] ∧ (∀ c ∈ ds, isDigitC c = true) ∧
      ((sgn = ['-'] ∧ r = -(digitsToNat ds : Int)) ∨
       ((sgn = [] ∨ sgn = ['+']) ∧ r = (digitsToNat ds : Int))) := by
  have hsplit : l = l.takeWhile isSpaceC ++ l.dropWhile isSpaceC :=
    (List.takeWhile_append_dropWhile _ _).symm
  have hws : ∀ c ∈ l.takeWhile isSpaceC, isSpaceC c = true :=
    fun c hc => List.mem_takeWhile_imp hc
  cases hd : l.dropWhile isSpaceC with
  | nil =>
    simp only [scanfInt, hd] at h
    exact Option.noConfusion h
  | cons c cs =>
    simp only [scanfInt, hd] at h
    rw [hd] at hsplit
    by_cases hcm : c = '-'
    · rw [if_pos hcm] at h
      cases hrd : readDigits cs with
      | none => rw [hrd] at h; cases h
      | some p =>
        obtain ⟨pn, prest⟩ := p
        rw [hrd] at h
        simp only [Option.map_some', Option.some.injEq, Prod.mk.injEq] at h
        obtain ⟨hv, ht⟩ := h
        obtain ⟨ds, hcs, hne, hdig, hval⟩ := readDigits_sound cs pn prest hrd
        refine ⟨l.takeWhile isSpaceC, ['-'], ds, ?_, hws, hne, hdig,
          Or.inl ⟨rfl, by rw [← hv, hval]⟩⟩
        conv_lhs => rw [hsplit]
        rw [hcm, hcs, ht]
        simp
    · rw [if_neg hcm] at h
      by_cases hcp : c = '+'
      · rw [if_pos hcp] at h
        cases hrd : readDigits cs with
        | none => rw [hrd] at h; cases h
        | some p =>
          obtain ⟨pn, prest⟩ := p
          rw [hrd] at h
          simp only [Option.map_some', Option.some.injEq, Prod.mk.injEq] at h
          obtain ⟨hv, ht⟩ := h
          obtain ⟨ds, hcs, hne, hdig, hval⟩ := readDigits_sound cs pn prest hrd
          refine ⟨l.takeWhile isSpaceC, ['+'], ds, ?_, hws, hne, hdig,
            Or.inr ⟨Or.inr rfl, by rw [← hv, hval]⟩⟩
          conv_lhs => rw [hsplit]
          rw [hcp, hcs, ht]
          simp
      · rw [if_neg hcp] at h
        cases hrd : readDigits (c :: cs) with
        | none => rw [hrd] at h; cases h
        | some p =>
          obtain ⟨pn, prest⟩ := p
          rw [hrd] at h
          simp only [Option.map_some', Option.some.injEq, Prod.mk.injEq] at h
          obtain ⟨hv, ht⟩ := h
          obtain ⟨ds, hcs, hne, hdig, hval⟩ := readDigits_sound (c :: cs) pn prest hrd
          refine ⟨l.takeWhile isSpaceC, [], ds, ?_, hws, hne, hdig,
            Or.inr ⟨Or.inl rfl, by rw [← hv, hval]⟩⟩
          conv_lhs => rw [hsplit]
          rw [hcs, ht]
          simp

theorem scanfInt_complete (ds : List Char) (h1 : ds ≠ [])
    (h2 : ∀ c ∈ ds, isDigitC c = true) :
    scanfInt ds = some ((digitsToNat ds : Int), []) := by
  cases ds with
  | nil => cases h1 rfl
  | cons c cs =>
    have hc := h2 c (List.mem_cons_self _ _)
    obtain ⟨hsp, hminus, hplus⟩ := digitC_facts c hc
    have hdw : List.dropWhile isSpaceC (c :: cs) = c :: cs := by
      simp [List.dropWhile_cons, hsp]
    simp only [scanfInt, hdw]
    rw [if_neg hminus, if_neg hplus, readDigits_complete _ h1 h2]
    rfl

/-- C3 counterexample: the claim demands rejection of any release tail
with trailing characters after the digits and of non-"non-negative"
releases, but `sscanf`'s `%d` stops at the first non-digit (leaving
`sscanf` still reporting three successful conversions) and accepts a
sign, so both of these filenames produce an identity instead of the
claimed absent result. -/
theorem parse_name_garbage_counterexample :
    parse_kernel_name "org.clearlinux" "org.clearlinux.kvm.4.2.1-121abc" =
      some ("kvm", "4.2.1", 121) ∧
    parse_kernel_name "org.clearlinux" "org.clearlinux.kvm.4.2.1--121" =
      some ("kvm", "4.2.1", -121) := by decide

/-- C3 amended: the parser produces an identity only when the base name
decomposes as `<ns>.<type>.<version>-<rest>` with `type` nonempty, at
most 15 characters and free of `.`, `version` nonempty, at most 15
characters and free of `-`, and `rest` beginning — after optional C
whitespace and an optional sign — with at least one digit; the release is
the signed value of that digit run and any characters after the digits
are ignored.  Failures yield `none` (the embedding is a total function,
so no error is possible). -/
theorem parse_kernel_name_sound (ns s t v : String) (r : Int)
    (h : parse_kernel_name ns s = some (t, v, r)) :
    ∃ rest tail ws sgn ds,
      s.data = ns.data ++ '.' :: (t.data ++ '.' :: (v.data ++ '-' :: rest)) ∧
      t.data ≠ [] ∧ t.data.length ≤ 15 ∧ (∀ c ∈ t.data, c ≠ '.') ∧
      v.data ≠ [] ∧ v.data.length ≤ 15 ∧ (∀ c ∈ v.data, c ≠ '-') ∧
      rest = ws ++ sgn ++ ds ++ tail ∧ (∀ c ∈ ws, isSpaceC c = true) ∧
      ds ≠ [] ∧ (∀ c ∈ ds, isDigitC c = true) ∧
      ((sgn = ['-'] ∧ r = -(digitsToNat ds : Int)) ∨
       ((sgn = [] ∨ sgn = ['+']) ∧ r = (digitsToNat ds : Int))) := by
  cases hstrip : stripLits (ns.data ++ ['.']) s.data with
  | none =>
    simp only [parse_kernel_name, hstrip] at h
    exact Option.noConfusion h
  | some s1 =>
    simp only [parse_kernel_name, hstrip] at h
    obtain ⟨hs1, hlen1, hnb1⟩ := spanScan_sound '.' 15 s1
    by_cases hpt : (spanScan 15 '.' s1).1 = []
    · rw [if_pos hpt] at h
      exact Option.noConfusion h
    · rw [if_neg hpt] at h
      cases hpt2 : (spanScan 15 '.' s1).2 with
      | nil =>
        simp only [hpt2] at h
        exact Option.noConfusion h
      | cons c2 s3 =>
        simp only [hpt2] at h
        by_cases hc2 : c2 = '.'
        case neg =>
          rw [if_neg hc2] at h
          exact Option.noConfusion h
        case pos =>
          rw [if_pos hc2] at h
          obtain ⟨hs3, hlen2, hnb2⟩ := spanScan_sound '-' 15 s3
          by_cases hpv : (spanScan 15 '-' s3).1 = []
          · rw [if_pos hpv] at h
            exact Option.noConfusion h
          · rw [if_neg hpv] at h
            cases hpv2 : (spanScan 15 '-' s3).2 with
            | nil =>
              simp only [hpv2] at h
              exact Option.noConfusion h
            | cons c4 s5 =>
              simp only [hpv2] at h
              by_cases hc4 : c4 = '-'
              case neg =>
                rw [if_neg hc4] at h
                exact Option.noConfusion h
              case pos =>
                rw [if_pos hc4] at h
                cases hsc : scanfInt s5 with
                | none =>
                  simp only [hsc] at h
                  exact Option.noConfusion h
                | some pr =>
                  obtain ⟨rv, tail⟩ := pr
                  simp only [hsc] at h
                  have h' := Option.some.inj h
                  have he1 : (⟨(spanScan 15 '.' s1).1⟩ : String) = t := congrArg Prod.fst h'
                  have h2' := congrArg Prod.snd h'
                  have he2 : (⟨(spanScan 15 '-' s3).1⟩ : String) = v := congrArg Prod.fst h2'
                  have he3 : rv = r := congrArg Prod.snd h2'
                  have htd : t.data = (spanScan 15 '.' s1).1 := by rw [← he1]
                  have hvd : v.data = (spanScan 15 '-' s3).1 := by rw [← he2]
                  obtain ⟨ws, sgn, ds, hrest, hws, hne, hdig, hsgn⟩ :=
                    scanfInt_sound s5 rv tail hsc
                  refine ⟨s5, tail, ws, sgn, ds, ?_, ?_, ?_, ?_, ?_, ?_, ?_, hrest, hws,
                    hne, hdig, ?_⟩
                  · have h0 := stripLits_sound _ _ _ hstrip
                    rw [h0, hs1, hpt2, hc2, hs3, hpv2, hc4, ← htd, ← hvd]
                    simp
                  · rw [htd]; exact hpt
                  · rw [htd]; exact hlen1
                  · rw [htd]; exact hnb1
                  · rw [hvd]; exact hpv
                  · rw [hvd]; exact hlen2
                  · rw [hvd]; exact hnb2
                  · rw [← he3]; exact hsgn

/-- Witness for `parse_kernel_name_sound` at the trailing-garbage
filename accepted by the parser. -/
theorem parse_kernel_name_sound_witness :
    ∃ rest tail ws sgn ds,
      ("org.clearlinux.kvm.4.2.1-121abc" : String).data =
        ("org.clearlinux" : String).data ++
          '.' :: (("kvm" : String).data ++ '.' :: (("4.2.1" : String).data ++ '-' :: rest)) ∧
      ("kvm" : String).data ≠ [] ∧ ("kvm" : String).data.length ≤ 15 ∧
      (∀ c ∈ ("kvm" : String).data, c ≠ '.') ∧
      ("4.2.1" : String).data ≠ [] ∧ ("4.2.1" : String).data.length ≤ 15 ∧
      (∀ c ∈ ("4.2.1" : String).data, c ≠ '-') ∧
      rest = ws ++ sgn ++ ds ++ tail ∧ (∀ c ∈ ws, isSpaceC c = true) ∧
      ds ≠ [] ∧ (∀ c ∈ ds, isDigitC c = true) ∧
      ((sgn = ['-'] ∧ (121 : Int) = -(digitsToNat ds : Int)) ∨
       ((sgn = [] ∨ sgn = ['+']) ∧ (121 : Int) = (digitsToNat ds : Int))) :=
  parse_kernel_name_sound "org.clearlinux" "org.clearlinux.kvm.4.2.1-121abc"
    "kvm" "4.2.1" 121 (by decide)

/-- C5: round-trip — for every namespace and every filename assembled as
`<ns>.<type>.<version>-<release>` whose type and version tokens are
nonempty, within the 15-character scan-set width and free of their
terminating delimiter, and whose release is a nonempty digit string,
parsing succeeds and returns exactly the embedded tokens and the numeric
value of the release digits. -/
theorem parse_kernel_name_roundtrip (ns t v rel : String)
    (ht1 : t.data ≠ []) (ht2 : t.data.length ≤ 15) (ht3 : ∀ c ∈ t.data, c ≠ '.')
    (hv1 : v.data ≠ []) (hv2 : v.data.length ≤ 15) (hv3 : ∀ c ∈ v.data, c ≠ '-')
    (hr1 : rel.data ≠ []) (hr2 : ∀ c ∈ rel.data, isDigitC c = true) :
    parse_kernel_name ns (ns ++ "." ++ t ++ "." ++ v ++ "-" ++ rel) =
      some (t, v, (digitsToNat rel.data : Int)) := by
  have hdata : (ns ++ "." ++ t ++ "." ++ v ++ "-" ++ rel).data =
      (ns.data ++ ['.']) ++ (t.data ++ '.' :: (v.data ++ '-' :: rel.data)) := by
    simp [String.data_append, (show (".").data = ['.'] from rfl),
      (show ("-").data = ['-'] from rfl)]
  simp only [parse_kernel_name, hdata, stripLits_complete,
    spanScan_complete '.' t.data 15 (v.data ++ '-' :: rel.data) ht3 ht2,
    spanScan_complete '-' v.data 15 rel.data hv3 hv2,
    scanfInt_complete rel.data hr1 hr2,
    if_neg ht1, if_neg hv1, if_pos rfl]
  simp

/-- Witness for `parse_kernel_name_roundtrip` at the filename of the
source comment (kernel.c:75). -/
theorem parse_kernel_name_roundtrip_witness :
    parse_kernel_name "org.clearlinux"
        ("org.clearlinux" ++ "." ++ "kvm" ++ "." ++ "4.2.1" ++ "-" ++ "121") =
      some ("kvm", "4.2.1", (digitsToNat ("121" : String).data : Int)) :=
  parse_kernel_name_roundtrip "org.clearlinux" "kvm" "4.2.1" "121"
    (by decide) (by decide) (by decide) (by decide) (by decide) (by decide)
    (by decide) (by decide)

/-- Tail of a space-joined line list: each line prefixed by one space. -/
def joinTail : List (List Char) → List Char
  | [] => []
  | l :: ls => ' ' :: (l ++ joinTail ls)

/-- Declarative single-space join of a list of lines. -/
def joinSp : List (List Char) → List Char
  | [] => []
  | l :: ls => l ++ joinTail ls

theorem cmdlineJoinL_some : ∀ (ls : List (List Char)) (a : List Char),
    cmdlineJoinL (some a) ls = some (a ++ joinTail (ls.map stripNl)) := by
  intro ls
  induction ls with
  | nil => intro a; simp [cmdlineJoinL, joinTail]
  | cons x xs ih =>
    intro a
    simp only [cmdlineJoinL, List.map_cons, joinTail]
    rw [ih]
    simp [List.append_assoc]

/-- The spec's cmdline join (§4.2 of the spec, for the C6 comparison):
strip one trailing newline from EVERY line that has one, then join with
single spaces; absent when there is no line. -/
def spec_cmdline (content : List Char) : Option (List Char) :=
  if linesOf content = [] then none
  else some (joinSp ((linesOf content).map
    (fun l => if l.getLast? = some '\n' then l.dropLast else l)))

/-- C6 counterexample: on a fragment file whose content is a single
newline, `getline` returns the one-byte line `"\n"`; the strip guard
`r > 1` (kernel.c:158) leaves it untouched, so the built cmdline is
`"\n"`, while the claim's unconditional per-line strip demands `""`. -/
theorem cmdline_lone_newline_counterexample :
    cmdlineOf ['\n'] = some ['\n'] ∧ spec_cmdline ['\n'] = some [] ∧
      (['\n'] : List Char) ≠ ([] : List Char) := by decide

/-- C6 amended: the built cmdline equals the `getline` lines of the file,
each stripped of one trailing newline ONLY when the line is longer than
one character (a line consisting solely of a newline keeps it), joined in
file order with a single space between consecutive lines; absent when the
file has no lines. -/
theorem cmdline_join_amended (content : List Char) :
    cmdlineOf content =
      if linesOf content = [] then none
      else some (joinSp ((linesOf content).map stripNl)) := by
  unfold cmdlineOf
  cases hl : linesOf content with
  | nil => simp [cmdlineJoinL]
  | cons x xs =>
    rw [if_neg (by simp)]
    simp only [cmdlineJoinL]
    rw [cmdlineJoinL_some]
    simp [joinSp]

theorem linesAux_ne_nil : ∀ (rest acc : List Char), acc ≠ [] → linesAux acc rest ≠ [] := by
  intro rest
  induction rest with
  | nil => intro acc h; simp [linesAux, h]
  | cons c rs ih =>
    intro acc h
    by_cases hc : c = '\n'
    · simp [linesAux, hc]
    · simp only [linesAux, if_neg hc]
      exact ih (acc ++ [c]) (by simp)

theorem linesOf_ne_nil (c : Char) (cs : List Char) : linesOf (c :: cs) ≠ [] := by
  unfold linesOf
  by_cases hc : c = '\n'
  · simp [linesAux, hc]
  · simp only [linesAux, if_neg hc]
    exact linesAux_ne_nil cs ([] ++ [c]) (by simp)

/-- The builder's cmdline is `NULL` exactly on an empty (zero-line)
fragment file. -/
theorem cmdlineOf_eq_none_iff (l : List Char) : cmdlineOf l = none ↔ l = [] := by
  constructor
  · intro h
    cases l with
    | nil => rfl
    | cons c cs =>
      exfalso
      cases hl : linesOf (c :: cs) with
      | nil => exact linesOf_ne_nil c cs hl
      | cons x xs =>
        unfold cmdlineOf at h
        rw [hl] at h
        simp only [cmdlineJoinL] at h
        rw [cmdlineJoinL_some] at h
        exact Option.noConfusion h
  · intro h
    subst h
    rfl

/-- C4 amended: a record returned by a successful build carries
`cmdline = cmdlineOf(content)` for the content actually read from its
cmdline-fragment file, and that cmdline is null IFF the file was empty
(zero lines) — so the claim's "never null" fails exactly on empty
fragment files. -/
theorem inspect_cmdline_amended (ns : String) (fs : Fs) (pO : String → String)
    (mdir : String) (self : BootManager) (path : String) (k : Kernel)
    (h : boot_manager_inspect_kernel ns fs pO mdir (some self) (some path) = some k) :
    ∃ content, fs.readFile k.cmdline_file = some content ∧
      k.cmdline = (cmdlineOf content.data).map (fun l => ⟨l⟩) ∧
      (k.cmdline = none ↔ content.data = []) := by
  simp only [boot_manager_inspect_kernel] at h
  cases hparse : parse_kernel_name ns (basenameStr path) with
  | none =>
    simp only [hparse] at h
    exact Option.noConfusion h
  | some tv =>
    obtain ⟨t, v, rel⟩ := tv
    simp only [hparse] at h
    cases hex : fs.fexists (pO path ++ "/cmdline-" ++ v ++ "-" ++ intStr rel ++ "." ++ t) with
    | false =>
      simp only [hex] at h
      exact Option.noConfusion h
    | true =>
      simp only [hex] at h
      cases hres : resolve_module_dir fs self.pfx mdir v rel t with
      | none =>
        simp only [hres] at h
        exact Option.noConfusion h
      | some md =>
        simp only [hres] at h
        cases hrd : fs.readFile (pO path ++ "/cmdline-" ++ v ++ "-" ++ intStr rel ++ "." ++ t) with
        | none =>
          simp only [hrd] at h
          exact Option.noConfusion h
        | some content =>
          simp only [hrd] at h
          obtain rfl := Option.some.inj h
          refine ⟨content, hrd, rfl, ?_⟩
          have hmap : ((cmdlineOf content.data).map
              (fun l => (⟨l⟩ : String)) = none) ↔ cmdlineOf content.data = none :=
            Option.map_eq_none'
          exact hmap.trans (cmdlineOf_eq_none_iff content.data)

def mgrC4 : BootManager :=
  { pfx := "/lib", kernel_dir := some "/kd", sys_kernel := none, image_mode := false }

def fsC4 : Fs :=
  { fexists := fun p => p == "/kd/cmdline-4.2.1-121.kvm" || p == "/lib/modules/4.2.1-121.kvm"
    readFile := fun p => if p == "/kd/cmdline-4.2.1-121.kvm" then some "" else none
    lstat := fun _ => none
    readlink := fun _ => none
    dirents := fun _ => none }

/-- C4 counterexample: the cmdline-fragment file exists but is empty
(zero lines), so `getline` never fires and `kern->cmdline` stays the
`NULL` of `calloc` — yet the build succeeds, returning a record whose
cmdline is null, contradicting "non-null cmdline in every successful
build, including a zero-line fragment file". -/
theorem inspect_empty_cmdline_counterexample :
    (boot_manager_inspect_kernel "org.clearlinux" fsC4 (fun _ => "/kd") "modules"
        (some mgrC4) (some "/kd/org.clearlinux.kvm.4.2.1-121")).map Kernel.cmdline =
      some none := by decide

def kC4 : Kernel :=
  { path := "/kd/org.clearlinux.kvm.4.2.1-121", bpath := "org.clearlinux.kvm.4.2.1-121"
    version := "4.2.1", module_dir := "/lib/modules/4.2.1-121.kvm", ktype := "kvm"
    kconfig_file := none, release := 121, cmdline := none
    cmdline_file := "/kd/cmdline-4.2.1-121.kvm"
    kboot_file := "/lib/var/lib/kernel/k_booted_4.2.1-121.kvm", boots := false }

/-- Witness for `inspect_cmdline_amended` on the empty-fragment build. -/
theorem inspect_cmdline_amended_witness :
    ∃ content, fsC4.readFile kC4.cmdline_file = some content ∧
      kC4.cmdline = (cmdlineOf content.data).map (fun l => ⟨l⟩) ∧
      (kC4.cmdline = none ↔ content.data = []) :=
  inspect_cmdline_amended "org.clearlinux" fsC4 (fun _ => "/kd") "modules" mgrC4
    "/kd/org.clearlinux.kvm.4.2.1-121" kC4 (by decide)

/-- C7: for a matched entry (parse succeeded) whose cmdline fragment
exists and is readable, the build resolves the module directory with the
current-layout/legacy fallback of kernel.c:100-128: if the current layout
`<prefix>/<mdir>/<version>-<release>.<type>` exists the record is built
with that `module_dir`; if only the legacy layout without the `.type`
suffix exists the record is still built with the legacy path; when
neither exists the entry yields no record (a plain `none`, not an
error). -/
theorem module_dir_fallback (ns : String) (fs : Fs) (pO : String → String)
    (mdir : String) (self : BootManager) (path t v : String) (rel : Int) (content : String)
    (hparse : parse_kernel_name ns (basenameStr path) = some (t, v, rel))
    (hcp : fs.fexists (pO path ++ "/cmdline-" ++ v ++ "-" ++ intStr rel ++ "." ++ t) = true)
    (hrd : fs.readFile (pO path ++ "/cmdline-" ++ v ++ "-" ++ intStr rel ++ "." ++ t) =
      some content) :
    (fs.fexists (self.pfx ++ "/" ++ mdir ++ "/" ++ v ++ "-" ++ intStr rel ++ "." ++ t) = true →
      (boot_manager_inspect_kernel ns fs pO mdir (some self) (some path)).map
          Kernel.module_dir =
        some (self.pfx ++ "/" ++ mdir ++ "/" ++ v ++ "-" ++ intStr rel ++ "." ++ t)) ∧
    (fs.fexists (self.pfx ++ "/" ++ mdir ++ "/" ++ v ++ "-" ++ intStr rel ++ "." ++ t) = false →
      fs.fexists (self.pfx ++ "/" ++ mdir ++ "/" ++ v ++ "-" ++ intStr rel) = true →
      (boot_manager_inspect_kernel ns fs pO mdir (some self) (some path)).map
          Kernel.module_dir =
        some (self.pfx ++ "/" ++ mdir ++ "/" ++ v ++ "-" ++ intStr rel)) ∧
    (fs.fexists (self.pfx ++ "/" ++ mdir ++ "/" ++ v ++ "-" ++ intStr rel ++ "." ++ t) = false →
      fs.fexists (self.pfx ++ "/" ++ mdir ++ "/" ++ v ++ "-" ++ intStr rel) = false →
      boot_manager_inspect_kernel ns fs pO mdir (some self) (some path) = none) := by
  refine ⟨?_, ?_, ?_⟩
  · intro h1
    have hres : resolve_module_dir fs self.pfx mdir v rel t =
        some (self.pfx ++ "/" ++ mdir ++ "/" ++ v ++ "-" ++ intStr rel ++ "." ++ t) := by
      simp [resolve_module_dir, h1]
    simp only [boot_manager_inspect_kernel, hparse, hcp, hres, hrd, Option.map_some']
  · intro h1 h2
    have hres : resolve_module_dir fs self.pfx mdir v rel t =
        some (self.pfx ++ "/" ++ mdir ++ "/" ++ v ++ "-" ++ intStr rel) := by
      simp [resolve_module_dir, h1, h2]
    simp only [boot_manager_inspect_kernel, hparse, hcp, hres, hrd, Option.map_some']
  · intro h1 h2
    have hres : resolve_module_dir fs self.pfx mdir v rel t = none := by
      simp [resolve_module_dir, h1, h2]
    simp only [boot_manager_inspect_kernel, hparse, hcp, hres]

def fsC7 : Fs :=
  { fexists := fun p => p == "/kd/cmdline-4.2.1-121.kvm" || p == "/lib/modules/4.2.1-121"
    readFile := fun p => if p == "/kd/cmdline-4.2.1-121.kvm" then some "quiet\n" else none
    lstat := fun _ => none
    readlink := fun _ => none
    dirents := fun _ => none }

/-- Witness for `module_dir_fallback` on a legacy-only module layout. -/
theorem module_dir_fallback_witness :
    (fsC7.fexists (("/lib" : String) ++ "/" ++ "modules" ++ "/" ++ "4.2.1" ++ "-"
        ++ intStr 121 ++ "." ++ "kvm") = true →
      (boot_manager_inspect_kernel "org.clearlinux" fsC7 (fun _ => "/kd") "modules"
          (some mgrC4) (some "/kd/org.clearlinux.kvm.4.2.1-121")).map Kernel.module_dir =
        some (("/lib" : String) ++ "/" ++ "modules" ++ "/" ++ "4.2.1" ++ "-"
          ++ intStr 121 ++ "." ++ "kvm")) ∧
    (fsC7.fexists (("/lib" : String) ++ "/" ++ "modules" ++ "/" ++ "4.2.1" ++ "-"
        ++ intStr 121 ++ "." ++ "kvm") = false →
      fsC7.fexists (("/lib" : String) ++ "/" ++ "modules" ++ "/" ++ "4.2.1" ++ "-"
        ++ intStr 121) = true →
      (boot_manager_inspect_kernel "org.clearlinux" fsC7 (fun _ => "/kd") "modules"
          (some mgrC4) (some "/kd/org.clearlinux.kvm.4.2.1-121")).map Kernel.module_dir =
        some (("/lib" : String) ++ "/" ++ "modules" ++ "/" ++ "4.2.1" ++ "-" ++ intStr 121)) ∧
    (fsC7.fexists (("/lib" : String) ++ "/" ++ "modules" ++ "/" ++ "4.2.1" ++ "-"
        ++ intStr 121 ++ "." ++ "kvm") = false →
      fsC7.fexists (("/lib" : String) ++ "/" ++ "modules" ++ "/" ++ "4.2.1" ++ "-"
        ++ intStr 121) = false →
      boot_manager_inspect_kernel "org.clearlinux" fsC7 (fun _ => "/kd") "modules"
        (some mgrC4) (some "/kd/org.clearlinux.kvm.4.2.1-121") = none) :=
  module_dir_fallback "org.clearlinux" fsC7 (fun _ => "/kd") "modules" mgrC4
    "/kd/org.clearlinux.kvm.4.2.1-121" "kvm" "4.2.1" 121 "quiet\n"
    (by decide) (by decide) (by decide)
